import Mathlib

/-!
Verification of the grid-overlay core of `image_grid.py` (lhstorm/image_grid).

The module's operations (`draw_grid`, `draw_adaptive_grid`,
`draw_golden_ratio_grid`, `draw_rule_of_thirds`, `draw_center_lines`,
`draw_guide_lines`) are embedded as pure Lean functions.  An image is a
row-major list of rows of 3-channel pixels, exactly the data the numpy
buffer holds.  Python behaviour that can raise (`range` with a zero step,
`//` by zero) is embedded with `Except PyErr`.

External library calls (OpenCV) are not code of this repository; they are
modelled from the spec:
  * `cv2.line`   — "generate a vertical line at every x ..." together with
    the thickness field; only axis-aligned segments are ever drawn here, and
    a segment colours the band of pixels centred on the line, clipped to the
    image, endpoints inclusive (`segCovers`).
  * `cv2.addWeighted(overlay, alpha, image, 1-alpha, 0)` — "the final image
    is computed per-pixel as round(overlay·alpha + original·(1-alpha)),
    channel-wise, clamped to [0,255]" (`addWeighted`).
Python floats (the golden-ratio accumulation, the percent division in
`draw_guide_lines`) are modelled as exact rational arithmetic on the same
literals.

In-place mutation (`overlay = image.copy()` followed by `cv2.line` writes)
is additionally embedded with an explicit buffer heap (`Heap`,
`renderOverlay_heap`) so that the no-mutation claim about the caller's
buffer is a real statement rather than a triviality of a pure embedding.
-/

/-- One pixel: three 8-bit channels (values kept as `Nat`, with the 0..255
bound stated as a predicate where a claim needs it). -/
abbrev Color := Nat × Nat × Nat

/-- An image buffer: rows of pixels, row-major, `pix[y][x]` like numpy. -/
abbrev Img := List (List Color)

/-- An axis-aligned segment, as the two endpoints handed to `cv2.line`. -/
abbrev Seg := (Int × Int) × (Int × Int)

/-- The Python exceptions the embedded code can raise. -/
inductive PyErr where
  | valueError
  | zeroDivisionError
deriving DecidableEq

/-- `height, width = image.shape[:2]` — the height component. -/
def heightOf (img : Img) : Nat := img.length

/-- `height, width = image.shape[:2]` — the width component (numpy buffers
are rectangular, so the first row's length is the buffer width). -/
def widthOf (img : Img) : Nat := (img.headD []).length

/-- The list of row lengths; two images of equal `shape` have equal height
and equal per-row widths. -/
def shape (img : Img) : List Nat := img.map List.length

/-- Number of elements of Python `range(start, stop, step)` for `step ≠ 0`
(Python computes exactly this ceiling-division count). -/
def rangeLen (start stop step : Int) : Nat :=
  if 0 < step then ((stop - start + step - 1).fdiv step).toNat
  else ((start - stop + (-step) - 1).fdiv (-step)).toNat

/-- The elements of Python `range(start, stop, step)` for `step ≠ 0`. -/
def rangeList (start stop step : Int) : List Int :=
  (List.range (rangeLen start stop step)).map (fun (k : Nat) => start + (k : Int) * step)

/-- Python `range(start, stop, step)`: raises `ValueError` when `step = 0`. -/
def pyRange (start stop step : Int) : Except PyErr (List Int) :=
  if step = 0 then .error .valueError else .ok (rangeList start stop step)

/-- Python integer floor division `a // b`: raises `ZeroDivisionError` when
`b = 0`, otherwise floors. -/
def pyFloorDiv (a b : Int) : Except PyErr Int :=
  if b = 0 then .error .zeroDivisionError else .ok (a.fdiv b)

/-- Python `int(...)` on a (here rational-modelled) float: truncation toward
zero. -/
def pyInt (q : ℚ) : Int := q.num.tdiv (q.den : Int)

/-- Map over a list with the index of each element, starting at `i`. -/
def mapIdxFrom (f : Nat → α → β) : Nat → List α → List β
  | _, [] => []
  | i, a :: as => f i a :: mapIdxFrom f (i + 1) as

/-- Rewrite every pixel of an image as a function of its coordinates. -/
def imgMap (f : Int → Int → Color → Color) (img : Img) : Img :=
  mapIdxFrom (fun y row => mapIdxFrom (fun x p => f (x : Int) (y : Int) p) 0 row) 0 img

/-- Modelled from the spec: the set of pixels `cv2.line` colours for the
axis-aligned segments this repository draws — the band of `thickness`
columns (resp. rows) centred on the line, between the endpoints inclusive.
Pixels outside the buffer are clipped away by `imgMap` itself. -/
def segCovers (p1 p2 : Int × Int) (t : Nat) (x y : Int) : Bool :=
  if p1.1 = p2.1 then
    decide (p1.1 - (((t - 1) / 2 : Nat) : Int) ≤ x ∧ x ≤ p1.1 + ((t / 2 : Nat) : Int) ∧
      min p1.2 p2.2 ≤ y ∧ y ≤ max p1.2 p2.2)
  else if p1.2 = p2.2 then
    decide (min p1.1 p2.1 ≤ x ∧ x ≤ max p1.1 p2.1 ∧
      p1.2 - (((t - 1) / 2 : Nat) : Int) ≤ y ∧ y ≤ p1.2 + ((t / 2 : Nat) : Int))
  else false

/-- One `cv2.line(overlay, s.1, s.2, color, thickness)` call. -/
def drawSeg (color : Color) (thickness : Nat) (img : Img) (s : Seg) : Img :=
  imgMap (fun x y p => if segCovers s.1 s.2 thickness x y then color else p) img

/-- Read pixel `[y][x]` of a buffer (out-of-range reads default, used only
in statements that also bound the coordinates). -/
def getPixel (img : Img) (x y : Nat) : Color := (img.getD y []).getD x (0, 0, 0)

/-- OpenCV `saturate_cast<uchar>`: clamp an integer to [0, 255]. -/
def clamp255 (z : Int) : Nat := (max 0 (min 255 z)).toNat

/-- Modelled from the spec: one channel of
`cv2.addWeighted(overlay, alpha, image, 1-alpha, 0)` —
`round(overlay·alpha + original·(1-alpha))` clamped to [0,255]. -/
def blendChan (a b : Nat) (alpha : ℚ) : Nat :=
  clamp255 (round ((a : ℚ) * alpha + (b : ℚ) * (1 - alpha)))

/-- Channel-wise blend of two pixels. -/
def blendPix (p q : Color) (alpha : ℚ) : Color :=
  (blendChan p.1 q.1 alpha, blendChan p.2.1 q.2.1 alpha, blendChan p.2.2 q.2.2 alpha)

/-- Modelled from the spec: `cv2.addWeighted(a, alpha, b, 1-alpha, 0)`. -/
def addWeighted (a : Img) (alpha : ℚ) (b : Img) : Img :=
  List.zipWith (fun ra rb => List.zipWith (fun p q => blendPix p q alpha) ra rb) a b

/-- The dashed branch of the vertical-line loop of `draw_grid`:
`for y in range(0, height, dash_length + dash_gap): y2 = min(y + dash_length, height)`;
the inner `range` is evaluated once per vertical line, so a zero dash period
raises only when at least one vertical line exists. -/
def vDashSegsLoop (H dl dg : Int) (xs : List Int) (acc : List Seg) :
    Except PyErr (List Seg) :=
  match xs with
  | [] => .ok acc
  | x :: rest =>
    match pyRange 0 H (dl + dg) with
    | .error e => .error e
    | .ok ys =>
      vDashSegsLoop H dl dg rest (acc ++ ys.map fun y => ((x, y), (x, min (y + dl) H)))

/-- The dashed branch of the horizontal-line loop of `draw_grid`. -/
def hDashSegsLoop (W dl dg : Int) (ys : List Int) (acc : List Seg) :
    Except PyErr (List Seg) :=
  match ys with
  | [] => .ok acc
  | y :: rest =>
    match pyRange 0 W (dl + dg) with
    | .error e => .error e
    | .ok xs =>
      hDashSegsLoop W dl dg rest (acc ++ xs.map fun x => ((x, y), (min (x + dl) W, y)))

/-- The vertical-line loop of `draw_grid`
(`for x in range(offset_x, width, grid_size_x): ...`), as the segments it
hands to `cv2.line`, in drawing order. -/
def vSegs (W H gsx : Int) (dashed : Bool) (dl dg offX : Int) :
    Except PyErr (List Seg) :=
  match pyRange offX W gsx with
  | .error e => .error e
  | .ok xs =>
    if dashed = false then .ok (xs.map fun x => ((x, (0 : Int)), (x, H)))
    else vDashSegsLoop H dl dg xs []

/-- The horizontal-line loop of `draw_grid`
(`for y in range(offset_y, height, grid_size_y): ...`). -/
def hSegs (W H gsy : Int) (dashed : Bool) (dl dg offY : Int) :
    Except PyErr (List Seg) :=
  match pyRange offY H gsy with
  | .error e => .error e
  | .ok ys =>
    if dashed = false then .ok (ys.map fun y => (((0 : Int), y), (W, y)))
    else hDashSegsLoop W dl dg ys []

/-- The `overlay` buffer of `draw_grid` after both line loops: a copy of the
image with every vertical then horizontal segment drawn onto it. -/
def gridOverlayBuf (image : Img) (gsx gsy : Int) (color : Color) (thickness : Nat)
    (dashed : Bool) (dl dg offX offY : Int) : Except PyErr Img :=
  match vSegs (widthOf image) (heightOf image) gsx dashed dl dg offX with
  | .error e => .error e
  | .ok vs =>
    match hSegs (widthOf image) (heightOf image) gsy dashed dl dg offY with
    | .error e => .error e
    | .ok hs => .ok ((vs ++ hs).foldl (drawSeg color thickness) image)

/-- `draw_grid`: fixed-cell-size grid, lines drawn on a copy, then
`cv2.addWeighted(overlay, alpha, image, 1 - alpha, 0)`. -/
def draw_grid (image : Img) (grid_size_x grid_size_y : Int) (color : Color)
    (thickness : Nat) (alpha : ℚ) (dashed : Bool)
    (dash_length dash_gap offset_x offset_y : Int) : Except PyErr Img :=
  match gridOverlayBuf image grid_size_x grid_size_y color thickness dashed
      dash_length dash_gap offset_x offset_y with
  | .error e => .error e
  | .ok overlay => .ok (addWeighted overlay alpha image)

/-- `draw_adaptive_grid`: `cell_width = width // num_cells_x`,
`cell_height = height // num_cells_y`, then delegate to `draw_grid`. -/
def draw_adaptive_grid (image : Img) (num_cells_x num_cells_y : Int) (color : Color)
    (thickness : Nat) (alpha : ℚ) (dashed : Bool)
    (dash_length dash_gap offset_x offset_y : Int) : Except PyErr Img :=
  match pyFloorDiv (widthOf image) num_cells_x with
  | .error e => .error e
  | .ok cell_width =>
    match pyFloorDiv (heightOf image) num_cells_y with
    | .error e => .error e
    | .ok cell_height =>
      draw_grid image cell_width cell_height color thickness alpha dashed
        dash_length dash_gap offset_x offset_y

/-- The golden-ratio constant literal of `draw_golden_ratio_grid`
(`phi = 1.618033988749895`); Python double arithmetic is modelled as exact
rational arithmetic on this literal. -/
def phi : ℚ := 1.618033988749895

/-- The accumulation loop of `draw_golden_ratio_grid`:
`pos += extent / phi ** (i+1); positions.append(int(pos))` — the running
position is kept unrounded, each appended entry truncates it. -/
def goldenLoop (extent pos : ℚ) (i : Nat) : Nat → List Int
  | 0 => []
  | n + 1 =>
    let pos2 := pos + extent / phi ^ (i + 1)
    pyInt pos2 :: goldenLoop extent pos2 (i + 1) n

/-- `positions_h` (resp. `positions_v`) of `draw_golden_ratio_grid`:
`divisions` accumulated golden-ratio division points starting from the
offset (Python `range(divisions)` is empty for non-positive `divisions`). -/
def golden_positions (extent : Nat) (offset : Int) (divisions : Int) : List Int :=
  goldenLoop (extent : ℚ) (offset : ℚ) 0 divisions.toNat

/-- The `overlay` buffer of `draw_golden_ratio_grid`: vertical lines at the
horizontal positions, then horizontal lines at the vertical positions. -/
def goldenOverlayBuf (image : Img) (divisions : Int) (color : Color)
    (thickness : Nat) (offset_x offset_y : Int) : Img :=
  let positions_h := golden_positions (widthOf image) offset_x divisions
  let positions_v := golden_positions (heightOf image) offset_y divisions
  ((positions_h.map fun x => ((x, (0 : Int)), (x, (heightOf image : Int)))) ++
    (positions_v.map fun y => (((0 : Int), y), ((widthOf image : Int), y)))).foldl
    (drawSeg color thickness) image

/-- `draw_golden_ratio_grid`: draw on a copy, then alpha-blend. -/
def draw_golden_ratio_grid (image : Img) (divisions : Int) (color : Color)
    (thickness : Nat) (alpha : ℚ) (offset_x offset_y : Int) : Img :=
  addWeighted (goldenOverlayBuf image divisions color thickness offset_x offset_y)
    alpha image

/-- The `overlay` buffer of `draw_rule_of_thirds`: vertical lines at
`width//3` and `2*width//3`, horizontal lines at `height//3` and
`2*height//3`. -/
def thirdsOverlayBuf (image : Img) (color : Color) (thickness : Nat) : Img :=
  let H := heightOf image
  let W := widthOf image
  let h1 := H / 3
  let h2 := 2 * H / 3
  let w1 := W / 3
  let w2 := 2 * W / 3
  ([(((w1 : Int), (0 : Int)), ((w1 : Int), (H : Int))),
    (((w2 : Int), (0 : Int)), ((w2 : Int), (H : Int))),
    (((0 : Int), (h1 : Int)), ((W : Int), (h1 : Int))),
    (((0 : Int), (h2 : Int)), ((W : Int), (h2 : Int)))]).foldl
    (drawSeg color thickness) image

/-- `draw_rule_of_thirds`: draw on a copy, then alpha-blend. -/
def draw_rule_of_thirds (image : Img) (color : Color) (thickness : Nat)
    (alpha : ℚ) : Img :=
  addWeighted (thirdsOverlayBuf image color thickness) alpha image

/-- The `overlay` buffer of `draw_center_lines`: one vertical line at
`width//2`, one horizontal line at `height//2`. -/
def centerOverlayBuf (image : Img) (color : Color) (thickness : Nat) : Img :=
  let H := heightOf image
  let W := widthOf image
  ([((((W / 2 : Nat) : Int), (0 : Int)), (((W / 2 : Nat) : Int), (H : Int))),
    (((0 : Int), ((H / 2 : Nat) : Int)), ((W : Int), ((H / 2 : Nat) : Int)))]).foldl
    (drawSeg color thickness) image

/-- `draw_center_lines`: draw on a copy, then alpha-blend. -/
def draw_center_lines (image : Img) (color : Color) (thickness : Nat)
    (alpha : ℚ) : Img :=
  addWeighted (centerOverlayBuf image color thickness) alpha image

/-- `draw_guide_lines`: `h_pixel = int(height * h_pos_percent / 100)`,
`v_pixel = int(width * v_pos_percent / 100)` (Python true division, modelled
exactly over ℚ), horizontal line drawn first, then vertical, directly on the
returned copy — no alpha blending. -/
def draw_guide_lines (image : Img) (h_pos_percent v_pos_percent : Int)
    (color : Color) (thickness : Nat) : Img :=
  let H := (heightOf image : Int)
  let W := (widthOf image : Int)
  let h_pixel := pyInt (((H * h_pos_percent : Int) : ℚ) / 100)
  let v_pixel := pyInt (((W * v_pos_percent : Int) : ℚ) / 100)
  drawSeg color thickness
    (drawSeg color thickness image ((0, h_pixel), (W, h_pixel)))
    ((v_pixel, 0), (v_pixel, H))

/-- The spec's `GridSpec` tagged variant (§3). -/
inductive GridSpec where
  | fixedSize (cellWidthPx cellHeightPx : Int)
  | fixedCount (cellsX cellsY : Int)
  | goldenRatio (divisions : Int)
  | ruleOfThirds
  | centerLines
  | guideLines (horizontalPercent verticalPercent : Int)

/-- The spec's `RenderStyle` (§3). -/
structure RenderStyle where
  color : Color
  thickness : Nat
  alpha : ℚ
  dashed : Bool
  dashLengthPx : Int
  dashGapPx : Int
  offsetX : Int
  offsetY : Int

/-- The spec's `renderOverlay(image, spec, style)`: dispatch to the module
function implementing each variant. -/
def renderOverlay (image : Img) (spec : GridSpec) (style : RenderStyle) :
    Except PyErr Img :=
  match spec with
  | .fixedSize cw ch =>
    draw_grid image cw ch style.color style.thickness style.alpha style.dashed
      style.dashLengthPx style.dashGapPx style.offsetX style.offsetY
  | .fixedCount cx cy =>
    draw_adaptive_grid image cx cy style.color style.thickness style.alpha
      style.dashed style.dashLengthPx style.dashGapPx style.offsetX style.offsetY
  | .goldenRatio d =>
    .ok (draw_golden_ratio_grid image d style.color style.thickness style.alpha
      style.offsetX style.offsetY)
  | .ruleOfThirds =>
    .ok (draw_rule_of_thirds image style.color style.thickness style.alpha)
  | .centerLines =>
    .ok (draw_center_lines image style.color style.thickness style.alpha)
  | .guideLines hp vp =>
    .ok (draw_guide_lines image hp vp style.color style.thickness)

/-- Whether a spec is the GuideLines variant (the one unblended variant). -/
def GridSpec.isGuide : GridSpec → Bool
  | .guideLines _ _ => true
  | _ => false

/-- Replace the alpha of a style, keeping every other field. -/
def withAlpha (st : RenderStyle) (a : ℚ) : RenderStyle :=
  ⟨st.color, st.thickness, a, st.dashed, st.dashLengthPx, st.dashGapPx,
    st.offsetX, st.offsetY⟩

/-- The overlay buffer (copy of the image with the raw lines drawn, before
blending) of each blended variant; for GuideLines — which has no overlay
buffer — the arm returns the operation's own result and is excluded by
hypothesis wherever this definition is used. -/
def overlayBuf (image : Img) (spec : GridSpec) (style : RenderStyle) :
    Except PyErr Img :=
  match spec with
  | .fixedSize cw ch =>
    gridOverlayBuf image cw ch style.color style.thickness style.dashed
      style.dashLengthPx style.dashGapPx style.offsetX style.offsetY
  | .fixedCount cx cy =>
    match pyFloorDiv (widthOf image) cx with
    | .error e => .error e
    | .ok cw =>
      match pyFloorDiv (heightOf image) cy with
      | .error e => .error e
      | .ok ch =>
        gridOverlayBuf image cw ch style.color style.thickness style.dashed
          style.dashLengthPx style.dashGapPx style.offsetX style.offsetY
  | .goldenRatio d =>
    .ok (goldenOverlayBuf image d style.color style.thickness style.offsetX
      style.offsetY)
  | .ruleOfThirds => .ok (thirdsOverlayBuf image style.color style.thickness)
  | .centerLines => .ok (centerOverlayBuf image style.color style.thickness)
  | .guideLines hp vp =>
    .ok (draw_guide_lines image hp vp style.color style.thickness)

/-- A store of image buffers; a numpy array held by the caller is a
reference into it. -/
structure Heap where
  bufs : List Img

/-- Read the buffer a reference denotes. -/
def Heap.get (h : Heap) (r : Nat) : Img := h.bufs.getD r []

/-- Allocate a fresh buffer (`image.copy()`, or the result buffer
`cv2.addWeighted` returns) and hand back its reference. -/
def Heap.alloc (h : Heap) (img : Img) : Heap × Nat :=
  (⟨h.bufs ++ [img]⟩, h.bufs.length)

/-- Overwrite an existing buffer in place (the `cv2.line` calls mutate the
overlay copy; nothing reads the overlay between those writes, so they are
recorded as one store of the fully drawn buffer). -/
def Heap.write (h : Heap) (r : Nat) (img : Img) : Heap := ⟨h.bufs.set r img⟩

/-- `draw_grid` against the buffer heap: copy `img_with_grid`, copy
`overlay`, mutate `overlay` with the line loops, allocate the blended result
and return its reference. The caller's `image` buffer is never written. -/
def draw_grid_heap (h : Heap) (image : Nat) (gsx gsy : Int) (color : Color)
    (thickness : Nat) (alpha : ℚ) (dashed : Bool) (dl dg offX offY : Int) :
    Except PyErr (Heap × Nat) :=
  let img := h.get image
  let h1 := (h.alloc img).1
  let ovRef := h1.bufs.length
  let h2 := (h1.alloc img).1
  match gridOverlayBuf img gsx gsy color thickness dashed dl dg offX offY with
  | .error e => .error e
  | .ok ov =>
    let h3 := h2.write ovRef ov
    let outRef := h3.bufs.length
    let h4 := (h3.alloc (addWeighted ov alpha img)).1
    .ok (h4, outRef)

/-- Every overlay operation against the buffer heap, mirroring each
function's copy / in-place-draw / blend-allocate structure. -/
def renderOverlay_heap (h : Heap) (image : Nat) (spec : GridSpec)
    (style : RenderStyle) : Except PyErr (Heap × Nat) :=
  match spec with
  | .fixedSize cw ch =>
    draw_grid_heap h image cw ch style.color style.thickness style.alpha
      style.dashed style.dashLengthPx style.dashGapPx style.offsetX style.offsetY
  | .fixedCount cx cy =>
    match pyFloorDiv (widthOf (h.get image)) cx with
    | .error e => .error e
    | .ok cw =>
      match pyFloorDiv (heightOf (h.get image)) cy with
      | .error e => .error e
      | .ok ch =>
        draw_grid_heap h image cw ch style.color style.thickness style.alpha
          style.dashed style.dashLengthPx style.dashGapPx style.offsetX
          style.offsetY
  | .goldenRatio d =>
    let img := h.get image
    let ovRef := h.bufs.length
    let h1 := (h.alloc img).1
    let ov := goldenOverlayBuf img d style.color style.thickness style.offsetX
      style.offsetY
    let h2 := h1.write ovRef ov
    let outRef := h2.bufs.length
    let h3 := (h2.alloc (addWeighted ov style.alpha img)).1
    .ok (h3, outRef)
  | .ruleOfThirds =>
    let img := h.get image
    let ovRef := h.bufs.length
    let h1 := (h.alloc img).1
    let ov := thirdsOverlayBuf img style.color style.thickness
    let h2 := h1.write ovRef ov
    let outRef := h2.bufs.length
    let h3 := (h2.alloc (addWeighted ov style.alpha img)).1
    .ok (h3, outRef)
  | .centerLines =>
    let img := h.get image
    let ovRef := h.bufs.length
    let h1 := (h.alloc img).1
    let ov := centerOverlayBuf img style.color style.thickness
    let h2 := h1.write ovRef ov
    let outRef := h2.bufs.length
    let h3 := (h2.alloc (addWeighted ov style.alpha img)).1
    .ok (h3, outRef)
  | .guideLines hp vp =>
    let img := h.get image
    let rRef := h.bufs.length
    let h1 := (h.alloc img).1
    let h2 := h1.write rRef
      (draw_guide_lines img hp vp style.color style.thickness)
    .ok (h2, rRef)

/-- Channel bound of an 8-bit colour. -/
abbrev ColorOk (c : Color) : Prop := c.1 ≤ 255 ∧ c.2.1 ≤ 255 ∧ c.2.2 ≤ 255

/-- Every pixel of the buffer is within 8-bit channel range. -/
abbrev BoundedImg (img : Img) : Prop := ∀ row ∈ img, ∀ p ∈ row, ColorOk p

/-- The buffer is rectangular: every row has the buffer width. -/
abbrev RectImg (img : Img) : Prop := ∀ row ∈ img, row.length = widthOf img

/-- A valid input image per the spec: dimensions at least 1×1, rectangular,
three 8-bit channels per pixel. -/
abbrev ImgOk (img : Img) : Prop :=
  1 ≤ heightOf img ∧ 1 ≤ widthOf img ∧ RectImg img ∧ BoundedImg img

/-- The spec's RenderStyle constraints (§3, §4.1). -/
abbrev StyleOk (st : RenderStyle) : Prop :=
  0 ≤ st.alpha ∧ st.alpha ≤ 1 ∧ 1 ≤ st.thickness ∧ ColorOk st.color ∧
    (st.dashed = true → 1 ≤ st.dashLengthPx ∧ 1 ≤ st.dashGapPx) ∧
    0 ≤ st.offsetX ∧ 0 ≤ st.offsetY

/-- The spec's per-variant GridSpec constraints (§3, §4.1); for FixedCount
the resolved cell sizes must be at least one pixel. -/
abbrev SpecOk (spec : GridSpec) (img : Img) : Prop :=
  match spec with
  | .fixedSize cw ch => 1 ≤ cw ∧ 1 ≤ ch
  | .fixedCount cx cy =>
    1 ≤ cx ∧ 1 ≤ cy ∧ 1 ≤ (widthOf img : Int).fdiv cx ∧
      1 ≤ (heightOf img : Int).fdiv cy
  | .goldenRatio d => 1 ≤ d
  | .ruleOfThirds => True
  | .centerLines => True
  | .guideLines hp vp => 0 ≤ hp ∧ hp ≤ 100 ∧ 0 ≤ vp ∧ vp ≤ 100

/-! ### Basic lemmas about the pixel-level model -/

theorem mapIdxFrom_length (f : Nat → α → β) :
    ∀ (i : Nat) (l : List α), (mapIdxFrom f i l).length = l.length := by
  intro i l
  induction l generalizing i with
  | nil => rfl
  | cons a as ih => simp [mapIdxFrom, ih]

theorem mapIdxFrom_getElem? (f : Nat → α → β) :
    ∀ (l : List α) (i n : Nat), (mapIdxFrom f i l)[n]? = (l[n]?).map (f (i + n)) := by
  intro l
  induction l with
  | nil => intro i n; simp [mapIdxFrom]
  | cons a as ih =>
    intro i n
    cases n with
    | zero => simp [mapIdxFrom]
    | succ n =>
      simp only [mapIdxFrom, List.getElem?_cons_succ, ih]
      have : i + 1 + n = i + (n + 1) := by omega
      rw [this]

theorem mapIdxFrom_mem (f : Nat → α → β) :
    ∀ {i : Nat} {l : List α} {b : β}, b ∈ mapIdxFrom f i l → ∃ j a, a ∈ l ∧ b = f j a := by
  intro i l
  induction l generalizing i with
  | nil => intro b hb; simp [mapIdxFrom] at hb
  | cons a as ih =>
    intro b hb
    simp only [mapIdxFrom, List.mem_cons] at hb
    rcases hb with h | h
    · exact ⟨i, a, List.mem_cons_self a as, h⟩
    · obtain ⟨j, a', ha', hb'⟩ := ih h
      exact ⟨j, a', List.mem_cons_of_mem _ ha', hb'⟩

theorem mapIdxFrom_map_length (F : Nat → List Color → List Color)
    (hF : ∀ y row, (F y row).length = row.length) :
    ∀ (i : Nat) (img : Img), (mapIdxFrom F i img).map List.length = img.map List.length := by
  intro i img
  induction img generalizing i with
  | nil => rfl
  | cons r rs ih => simp [mapIdxFrom, hF, ih]

theorem shape_imgMap (f : Int → Int → Color → Color) (img : Img) :
    shape (imgMap f img) = shape img :=
  mapIdxFrom_map_length _ (fun _ row => mapIdxFrom_length _ 0 row) 0 img

theorem getPixel_eq (img : Img) (x y : Nat) :
    getPixel img x y = ((img[y]?.bind fun row => row[x]?).getD ((0 : Nat), (0 : Nat), (0 : Nat))) := by
  unfold getPixel
  rw [List.getD_eq_getElem?_getD, List.getD_eq_getElem?_getD]
  cases h : img[y]? with
  | none => simp [h]
  | some row => simp [h]

theorem getPixel_imgMap (f : Int → Int → Color → Color) (img : Img) (x y : Nat) :
    getPixel (imgMap f img) x y =
      ((img[y]?.bind fun row => row[x]?).map (f (x : Int) (y : Int))).getD
        ((0 : Nat), (0 : Nat), (0 : Nat)) := by
  rw [getPixel_eq]
  unfold imgMap
  rw [mapIdxFrom_getElem?]
  cases h : img[y]? with
  | none => simp
  | some row =>
    simp only [Nat.zero_add, Option.map_some', Option.some_bind]
    rw [mapIdxFrom_getElem?]
    cases hx : row[x]? <;> simp

theorem shape_drawSeg (c : Color) (t : Nat) (img : Img) (s : Seg) :
    shape (drawSeg c t img s) = shape img := shape_imgMap _ img

theorem drawSeg_getPixel_of_not_covered (c : Color) (t : Nat) (img : Img) (s : Seg)
    {x y : Nat} (h : segCovers s.1 s.2 t (x : Int) (y : Int) = false) :
    getPixel (drawSeg c t img s) x y = getPixel img x y := by
  unfold drawSeg
  rw [getPixel_imgMap, getPixel_eq]
  cases hopt : (img[y]?.bind fun row => row[x]?) <;> simp [h]

theorem shape_foldl_drawSeg (c : Color) (t : Nat) :
    ∀ (segs : List Seg) (img : Img), shape (segs.foldl (drawSeg c t) img) = shape img := by
  intro segs
  induction segs with
  | nil => intro img; rfl
  | cons s rest ih =>
    intro img
    simp only [List.foldl_cons]
    rw [ih, shape_drawSeg]

theorem boundedImg_drawSeg {c : Color} (t : Nat) {img : Img} (s : Seg)
    (hc : ColorOk c) (h : BoundedImg img) : BoundedImg (drawSeg c t img s) := by
  intro row' hrow' p hp
  obtain ⟨y0, row, hrow, rfl⟩ := mapIdxFrom_mem _ hrow'
  obtain ⟨x0, p0, hp0, rfl⟩ := mapIdxFrom_mem _ hp
  show ColorOk (if segCovers s.1 s.2 t (x0 : Int) (y0 : Int) = true then c else p0)
  by_cases hcov : segCovers s.1 s.2 t (x0 : Int) (y0 : Int) = true
  · rw [if_pos hcov]; exact hc
  · rw [if_neg hcov]; exact h row hrow p0 hp0

theorem boundedImg_foldl_drawSeg {c : Color} (t : Nat) (hc : ColorOk c) :
    ∀ (segs : List Seg) (img : Img),
      BoundedImg img → BoundedImg (segs.foldl (drawSeg c t) img) := by
  intro segs
  induction segs with
  | nil => intro img h; exact h
  | cons s rest ih =>
    intro img h
    exact ih _ (boundedImg_drawSeg _ _ hc h)

/-! ### Lemmas about alpha blending -/

theorem blendChan_one {a : Nat} (b : Nat) (h : a ≤ 255) : blendChan a b 1 = a := by
  unfold blendChan clamp255
  rw [mul_one, sub_self, mul_zero, add_zero, round_natCast]
  have h1 : min (255 : Int) (a : Int) = (a : Int) := by
    apply min_eq_right; exact_mod_cast h
  rw [h1]
  have h2 : max (0 : Int) (a : Int) = (a : Int) := by
    apply max_eq_right; exact_mod_cast Nat.zero_le a
  rw [h2, Int.toNat_ofNat]

theorem blendChan_zero (a : Nat) {b : Nat} (h : b ≤ 255) : blendChan a b 0 = b := by
  unfold blendChan clamp255
  rw [mul_zero, sub_zero, mul_one, zero_add, round_natCast]
  have h1 : min (255 : Int) (b : Int) = (b : Int) := by
    apply min_eq_right; exact_mod_cast h
  rw [h1]
  have h2 : max (0 : Int) (b : Int) = (b : Int) := by
    apply max_eq_right; exact_mod_cast Nat.zero_le b
  rw [h2, Int.toNat_ofNat]

theorem blendPix_one {p : Color} (q : Color) (h : ColorOk p) : blendPix p q 1 = p := by
  obtain ⟨h1, h2, h3⟩ := h
  unfold blendPix
  rw [blendChan_one _ h1, blendChan_one _ h2, blendChan_one _ h3]

theorem blendPix_zero (p : Color) {q : Color} (h : ColorOk q) : blendPix p q 0 = q := by
  obtain ⟨h1, h2, h3⟩ := h
  unfold blendPix
  rw [blendChan_zero _ h1, blendChan_zero _ h2, blendChan_zero _ h3]

theorem shape_addWeighted (alpha : ℚ) :
    ∀ (a b : Img), shape a = shape b → shape (addWeighted a alpha b) = shape b := by
  intro a
  induction a with
  | nil =>
    intro b hb
    unfold shape at hb
    have : b = [] := by simpa using (List.map_eq_nil_iff.mp hb.symm)
    subst this; rfl
  | cons ra as ih =>
    intro b hb
    cases b with
    | nil => simp [shape] at hb
    | cons rb bs =>
      simp only [shape, List.map_cons, List.cons.injEq] at hb
      obtain ⟨hlen, htail⟩ := hb
      simp only [addWeighted, List.zipWith_cons_cons, shape, List.map_cons,
        List.cons.injEq]
      constructor
      · rw [List.length_zipWith, hlen, min_self]
      · exact ih bs htail

theorem zipWith_blend_one :
    ∀ (ra rb : List Color), ra.length = rb.length → (∀ p ∈ ra, ColorOk p) →
      List.zipWith (fun p q => blendPix p q 1) ra rb = ra := by
  intro ra
  induction ra with
  | nil => intro rb _ _; simp
  | cons p ps ih =>
    intro rb hlen hb
    cases rb with
    | nil => simp at hlen
    | cons q qs =>
      simp only [List.zipWith_cons_cons, List.cons.injEq]
      refine ⟨blendPix_one q (hb p (List.mem_cons_self p ps)), ?_⟩
      exact ih qs (by simpa using hlen) (fun p' hp' => hb p' (List.mem_cons_of_mem _ hp'))

theorem zipWith_blend_zero :
    ∀ (ra rb : List Color), ra.length = rb.length → (∀ q ∈ rb, ColorOk q) →
      List.zipWith (fun p q => blendPix p q 0) ra rb = rb := by
  intro ra
  induction ra with
  | nil =>
    intro rb hlen _
    simp only [List.zipWith_nil_left]
    exact (List.eq_nil_of_length_eq_zero (by simpa using hlen.symm)).symm
  | cons p ps ih =>
    intro rb hlen hb
    cases rb with
    | nil => simp at hlen
    | cons q qs =>
      simp only [List.zipWith_cons_cons, List.cons.injEq]
      refine ⟨blendPix_zero p (hb q (List.mem_cons_self q qs)), ?_⟩
      exact ih qs (by simpa using hlen) (fun q' hq' => hb q' (List.mem_cons_of_mem _ hq'))

theorem addWeighted_one :
    ∀ (a b : Img), shape a = shape b → BoundedImg a → addWeighted a 1 b = a := by
  intro a
  induction a with
  | nil => intro b _ _; simp [addWeighted]
  | cons ra as ih =>
    intro b hb hbd
    cases b with
    | nil => simp [shape] at hb
    | cons rb bs =>
      simp only [shape, List.map_cons, List.cons.injEq] at hb
      simp only [addWeighted, List.zipWith_cons_cons, List.cons.injEq]
      constructor
      · exact zipWith_blend_one ra rb hb.1 (hbd ra (List.mem_cons_self ra as))
      · exact ih bs hb.2 (fun r hr => hbd r (List.mem_cons_of_mem _ hr))

theorem addWeighted_zero :
    ∀ (a b : Img), shape a = shape b → BoundedImg b → addWeighted a 0 b = b := by
  intro a
  induction a with
  | nil =>
    intro b hb _
    unfold shape at hb
    have : b = [] := by simpa using (List.map_eq_nil_iff.mp hb.symm)
    subst this; simp [addWeighted]
  | cons ra as ih =>
    intro b hb hbd
    cases b with
    | nil => simp [shape] at hb
    | cons rb bs =>
      simp only [shape, List.map_cons, List.cons.injEq] at hb
      simp only [addWeighted, List.zipWith_cons_cons, List.cons.injEq]
      constructor
      · exact zipWith_blend_zero ra rb hb.1 (hbd rb (List.mem_cons_self rb bs))
      · exact ih bs hb.2 (fun r hr => hbd r (List.mem_cons_of_mem _ hr))

theorem heightOf_eq_of_shape {a b : Img} (h : shape a = shape b) :
    heightOf a = heightOf b := by
  have := congrArg List.length h
  simpa [shape, heightOf] using this

theorem widthOf_eq_shape_headD (img : Img) : widthOf img = (shape img).headD 0 := by
  cases img <;> rfl

theorem widthOf_eq_of_shape {a b : Img} (h : shape a = shape b) :
    widthOf a = widthOf b := by
  rw [widthOf_eq_shape_headD, widthOf_eq_shape_headD, h]

/-! ### Lemmas about Python range and the line-position lattice -/

theorem pyRange_pos {start stop step : Int} (hs : step ≠ 0) :
    pyRange start stop step = .ok (rangeList start stop step) := by
  simp [pyRange, hs]

theorem lt_rangeLen_iff {start stop step : Int} (hs : 0 < step) (k : Nat) :
    k < rangeLen start stop step ↔ start + (k : Int) * step < stop := by
  unfold rangeLen
  rw [if_pos hs, Int.lt_toNat, Int.fdiv_eq_ediv _ (le_of_lt hs),
    Int.lt_iff_add_one_le, Int.le_ediv_iff_mul_le hs, add_one_mul]
  have h2 : ∀ m : Int, (k : Int) * step + step ≤ stop - start + step - 1 ↔
      start + (k : Int) * step < stop := by
    intro m
    constructor <;> (intro hh; omega)
  exact h2 0

theorem mem_rangeList {start stop step : Int} (hs : 0 < step) {x : Int} :
    x ∈ rangeList start stop step ↔
      ∃ k : Nat, x = start + (k : Int) * step ∧ x < stop := by
  unfold rangeList
  rw [List.mem_map]
  constructor
  · rintro ⟨k, hk, rfl⟩
    rw [List.mem_range] at hk
    exact ⟨k, rfl, (lt_rangeLen_iff hs k).1 hk⟩
  · rintro ⟨k, rfl, hlt⟩
    exact ⟨k, List.mem_range.mpr ((lt_rangeLen_iff hs k).2 hlt), rfl⟩

/-! ### Normal forms of the segment loops -/

theorem vDashSegsLoop_eq {H dl dg : Int} (hp : dl + dg ≠ 0) :
    ∀ (xs : List Int) (acc : List Seg),
      vDashSegsLoop H dl dg xs acc =
        .ok (acc ++ xs.flatMap fun x =>
          (rangeList 0 H (dl + dg)).map fun y => ((x, y), (x, min (y + dl) H))) := by
  intro xs
  induction xs with
  | nil => intro acc; simp [vDashSegsLoop]
  | cons x rest ih =>
    intro acc
    rw [vDashSegsLoop, pyRange_pos hp]
    simp [ih, List.flatMap_cons, List.append_assoc]

theorem hDashSegsLoop_eq {W dl dg : Int} (hp : dl + dg ≠ 0) :
    ∀ (ys : List Int) (acc : List Seg),
      hDashSegsLoop W dl dg ys acc =
        .ok (acc ++ ys.flatMap fun y =>
          (rangeList 0 W (dl + dg)).map fun x => ((x, y), (min (x + dl) W, y))) := by
  intro ys
  induction ys with
  | nil => intro acc; simp [hDashSegsLoop]
  | cons y rest ih =>
    intro acc
    rw [hDashSegsLoop, pyRange_pos hp]
    simp [ih, List.flatMap_cons, List.append_assoc]

theorem vSegs_eq_solid {W H gsx dl dg offX : Int} (hgs : gsx ≠ 0) :
    vSegs W H gsx false dl dg offX =
      .ok ((rangeList offX W gsx).map fun x => ((x, (0 : Int)), (x, H))) := by
  rw [vSegs, pyRange_pos hgs]
  rfl

theorem hSegs_eq_solid {W H gsy dl dg offY : Int} (hgs : gsy ≠ 0) :
    hSegs W H gsy false dl dg offY =
      .ok ((rangeList offY H gsy).map fun y => (((0 : Int), y), (W, y))) := by
  rw [hSegs, pyRange_pos hgs]
  rfl

theorem vSegs_eq_dashed {W H gsx dl dg offX : Int} (hgs : gsx ≠ 0) (hp : dl + dg ≠ 0) :
    vSegs W H gsx true dl dg offX =
      .ok ((rangeList offX W gsx).flatMap fun x =>
        (rangeList 0 H (dl + dg)).map fun y => ((x, y), (x, min (y + dl) H))) := by
  rw [vSegs, pyRange_pos hgs]
  simpa using vDashSegsLoop_eq hp (rangeList offX W gsx) []

theorem hSegs_eq_dashed {W H gsy dl dg offY : Int} (hgs : gsy ≠ 0) (hp : dl + dg ≠ 0) :
    hSegs W H gsy true dl dg offY =
      .ok ((rangeList offY H gsy).flatMap fun y =>
        (rangeList 0 W (dl + dg)).map fun x => ((x, y), (min (x + dl) W, y))) := by
  rw [hSegs, pyRange_pos hgs]
  simpa using hDashSegsLoop_eq hp (rangeList offY H gsy) []

theorem vSegs_ok {W H gsx dl dg offX : Int} {dashed : Bool} (hgs : gsx ≠ 0)
    (hd : dashed = true → dl + dg ≠ 0) :
    ∃ l, vSegs W H gsx dashed dl dg offX = .ok l := by
  cases dashed with
  | false => exact ⟨_, vSegs_eq_solid hgs⟩
  | true => exact ⟨_, vSegs_eq_dashed hgs (hd rfl)⟩

theorem hSegs_ok {W H gsy dl dg offY : Int} {dashed : Bool} (hgs : gsy ≠ 0)
    (hd : dashed = true → dl + dg ≠ 0) :
    ∃ l, hSegs W H gsy dashed dl dg offY = .ok l := by
  cases dashed with
  | false => exact ⟨_, hSegs_eq_solid hgs⟩
  | true => exact ⟨_, hSegs_eq_dashed hgs (hd rfl)⟩

/-! ### The overlay buffers: success, shape, channel bounds -/

theorem gridOverlayBuf_spec {img : Img} {gsx gsy : Int} {c : Color} {t : Nat}
    {dashed : Bool} {dl dg oX oY : Int} (hgsx : gsx ≠ 0) (hgsy : gsy ≠ 0)
    (hd : dashed = true → dl + dg ≠ 0) :
    ∃ buf, gridOverlayBuf img gsx gsy c t dashed dl dg oX oY = .ok buf ∧
      shape buf = shape img ∧
      (ColorOk c → BoundedImg img → BoundedImg buf) := by
  obtain ⟨vs, hvs⟩ :=
    @vSegs_ok (widthOf img : Int) (heightOf img : Int) gsx dl dg oX dashed hgsx hd
  obtain ⟨hs, hhs⟩ :=
    @hSegs_ok (widthOf img : Int) (heightOf img : Int) gsy dl dg oY dashed hgsy hd
  refine ⟨(vs ++ hs).foldl (drawSeg c t) img, ?_, ?_, ?_⟩
  · rw [gridOverlayBuf, hvs, hhs]
  · exact shape_foldl_drawSeg c t _ img
  · intro hc hb; exact boundedImg_foldl_drawSeg t hc _ img hb

theorem goldenOverlayBuf_spec (img : Img) (d : Int) (c : Color) (t : Nat)
    (oX oY : Int) :
    shape (goldenOverlayBuf img d c t oX oY) = shape img ∧
      (ColorOk c → BoundedImg img → BoundedImg (goldenOverlayBuf img d c t oX oY)) := by
  unfold goldenOverlayBuf
  exact ⟨shape_foldl_drawSeg c t _ img, fun hc hb => boundedImg_foldl_drawSeg t hc _ img hb⟩

theorem thirdsOverlayBuf_spec (img : Img) (c : Color) (t : Nat) :
    shape (thirdsOverlayBuf img c t) = shape img ∧
      (ColorOk c → BoundedImg img → BoundedImg (thirdsOverlayBuf img c t)) := by
  unfold thirdsOverlayBuf
  exact ⟨shape_foldl_drawSeg c t _ img, fun hc hb => boundedImg_foldl_drawSeg t hc _ img hb⟩

theorem centerOverlayBuf_spec (img : Img) (c : Color) (t : Nat) :
    shape (centerOverlayBuf img c t) = shape img ∧
      (ColorOk c → BoundedImg img → BoundedImg (centerOverlayBuf img c t)) := by
  unfold centerOverlayBuf
  exact ⟨shape_foldl_drawSeg c t _ img, fun hc hb => boundedImg_foldl_drawSeg t hc _ img hb⟩

theorem shape_draw_guide_lines (img : Img) (hp vp : Int) (c : Color) (t : Nat) :
    shape (draw_guide_lines img hp vp c t) = shape img := by
  unfold draw_guide_lines
  rw [shape_drawSeg, shape_drawSeg]

/-! ### Python division and truncation lemmas -/

theorem pyFloorDiv_ne {a b : Int} (hb : b ≠ 0) : pyFloorDiv a b = .ok (a.fdiv b) := by
  simp [pyFloorDiv, hb]

theorem pyInt_eq_floor {q : ℚ} (hq : 0 ≤ q) : pyInt q = ⌊q⌋ := by
  unfold pyInt
  rw [Rat.floor_def]
  exact Int.tdiv_eq_ediv (Rat.num_nonneg.mpr hq) (Int.natCast_nonneg _)

theorem pyInt_div100 (n : Int) (hn : 0 ≤ n) : pyInt ((n : ℚ) / 100) = n.fdiv 100 := by
  rw [pyInt_eq_floor (div_nonneg (by exact_mod_cast hn) (by norm_num))]
  rw [Int.fdiv_eq_ediv _ (by norm_num)]
  have h := Rat.floor_intCast_div_natCast n 100
  simpa using h

/-! ### Element-wise description of the range lattice -/

theorem rangeList_getElem?_eq {start stop step : Int} {k : Nat} {v : Int}
    (h : (rangeList start stop step)[k]? = some v) : v = start + (k : Int) * step := by
  unfold rangeList at h
  rw [List.getElem?_map] at h
  cases hr : (List.range (rangeLen start stop step))[k]? with
  | none => rw [hr] at h; simp at h
  | some m =>
    rw [hr] at h
    have hm : m = k := by
      have := List.getElem?_range (n := rangeLen start stop step) (m := k)
      by_cases hk : k < rangeLen start stop step
      · rw [this hk] at hr; exact (Option.some.inj hr).symm
      · rw [List.getElem?_eq_none (by simpa using Nat.le_of_not_lt hk)] at hr; cases hr
    simp only [Option.map_some'] at h
    rw [← Option.some.inj h, hm]

theorem rangeList_head_zero {stop step : Int} (hs : 0 < step) (hstop : 0 < stop) :
    (rangeList 0 stop step)[0]? = some 0 := by
  have hlen : 0 < rangeLen 0 stop step := by
    rw [lt_rangeLen_iff hs 0]
    simpa using hstop
  unfold rangeList
  rw [List.getElem?_map, List.getElem?_range hlen]
  simp

/-! ### The golden-ratio accumulation -/

theorem goldenLoop_getElem? (e : ℚ) :
    ∀ (n : Nat) (pos : ℚ) (i k : Nat), k < n →
      (goldenLoop e pos i n)[k]? =
        some (pyInt (pos + ∑ j in Finset.range (k + 1), e / phi ^ (i + j + 1))) := by
  intro n
  induction n with
  | zero => intro pos i k hk; omega
  | succ n ih =>
    intro pos i k hk
    cases k with
    | zero =>
      simp [goldenLoop, Finset.sum_range_one]
    | succ k =>
      have hlt : k < n := by omega
      have hstep := ih (pos + e / phi ^ (i + 1)) (i + 1) k hlt
      simp only [goldenLoop, List.getElem?_cons_succ]
      rw [hstep]
      congr 2
      rw [Finset.sum_range_succ' (fun j => e / phi ^ (i + j + 1)) (k + 1)]
      have hidx : ∀ j : Nat, i + (j + 1) + 1 = i + 1 + j + 1 := fun j => by omega
      simp only [hidx, Nat.add_zero]
      ring

/-! ### Success, shape and blending structure of every variant -/

theorem overlayBuf_spec {img : Img} {spec : GridSpec} {style : RenderStyle}
    (hspec : SpecOk spec img) (hstyle : StyleOk style) (hng : spec.isGuide = false) :
    ∃ buf, overlayBuf img spec style = .ok buf ∧ shape buf = shape img ∧
      (BoundedImg img → BoundedImg buf) ∧
      ∀ a : ℚ, renderOverlay img spec (withAlpha style a) = .ok (addWeighted buf a img) := by
  obtain ⟨ha0, ha1, ht, hcol, hdash0, hoX, hoY⟩ := hstyle
  have hdash : style.dashed = true → style.dashLengthPx + style.dashGapPx ≠ 0 := by
    intro hd
    obtain ⟨hl, hg⟩ := hdash0 hd
    omega
  cases spec with
  | fixedSize cw ch =>
    obtain ⟨h1, h2⟩ := hspec
    obtain ⟨buf, hbuf, hsh, hbd⟩ :=
      @gridOverlayBuf_spec img cw ch style.color style.thickness style.dashed
        style.dashLengthPx style.dashGapPx style.offsetX style.offsetY
        (by omega) (by omega) hdash
    refine ⟨buf, hbuf, hsh, fun hb => hbd hcol hb, fun a => ?_⟩
    show draw_grid img cw ch style.color style.thickness a style.dashed
        style.dashLengthPx style.dashGapPx style.offsetX style.offsetY =
      .ok (addWeighted buf a img)
    rw [draw_grid, hbuf]
  | fixedCount cx cy =>
    obtain ⟨h1, h2, h3, h4⟩ := hspec
    obtain ⟨buf, hbuf, hsh, hbd⟩ :=
      @gridOverlayBuf_spec img ((widthOf img : Int).fdiv cx)
        ((heightOf img : Int).fdiv cy) style.color style.thickness style.dashed
        style.dashLengthPx style.dashGapPx style.offsetX style.offsetY
        (by omega) (by omega) hdash
    refine ⟨buf, ?_, hsh, fun hb => hbd hcol hb, fun a => ?_⟩
    · show (match pyFloorDiv (widthOf img) cx with
        | .error e => Except.error e
        | .ok cw =>
          match pyFloorDiv (heightOf img) cy with
          | .error e => Except.error e
          | .ok ch =>
            gridOverlayBuf img cw ch style.color style.thickness style.dashed
              style.dashLengthPx style.dashGapPx style.offsetX style.offsetY) =
        .ok buf
      rw [pyFloorDiv_ne (by omega : cx ≠ 0), pyFloorDiv_ne (by omega : cy ≠ 0)]
      exact hbuf
    · show draw_adaptive_grid img cx cy style.color style.thickness a style.dashed
          style.dashLengthPx style.dashGapPx style.offsetX style.offsetY =
        .ok (addWeighted buf a img)
      rw [draw_adaptive_grid, pyFloorDiv_ne (by omega : cx ≠ 0),
        pyFloorDiv_ne (by omega : cy ≠ 0)]
      show draw_grid img ((widthOf img : Int).fdiv cx) ((heightOf img : Int).fdiv cy)
          style.color style.thickness a style.dashed style.dashLengthPx
          style.dashGapPx style.offsetX style.offsetY = .ok (addWeighted buf a img)
      rw [draw_grid, hbuf]
  | goldenRatio d =>
    obtain ⟨hsh, hbd⟩ := goldenOverlayBuf_spec img d style.color style.thickness
      style.offsetX style.offsetY
    exact ⟨_, rfl, hsh, fun hb => hbd hcol hb, fun a => rfl⟩
  | ruleOfThirds =>
    obtain ⟨hsh, hbd⟩ := thirdsOverlayBuf_spec img style.color style.thickness
    exact ⟨_, rfl, hsh, fun hb => hbd hcol hb, fun a => rfl⟩
  | centerLines =>
    obtain ⟨hsh, hbd⟩ := centerOverlayBuf_spec img style.color style.thickness
    exact ⟨_, rfl, hsh, fun hb => hbd hcol hb, fun a => rfl⟩
  | guideLines hp vp => simp [GridSpec.isGuide] at hng

theorem renderOverlay_spec {img : Img} {spec : GridSpec} {style : RenderStyle}
    (hspec : SpecOk spec img) (hstyle : StyleOk style) :
    ∃ out, renderOverlay img spec style = .ok out ∧ shape out = shape img := by
  by_cases hng : spec.isGuide = false
  · obtain ⟨buf, _, hsh, _, hall⟩ := overlayBuf_spec hspec hstyle hng
    refine ⟨addWeighted buf style.alpha img, ?_, shape_addWeighted _ _ _ hsh⟩
    exact hall style.alpha
  · cases spec with
    | guideLines hp vp =>
      exact ⟨_, rfl, shape_draw_guide_lines img hp vp style.color style.thickness⟩
    | fixedSize cw ch => exact absurd rfl hng
    | fixedCount cx cy => exact absurd rfl hng
    | goldenRatio d => exact absurd rfl hng
    | ruleOfThirds => exact absurd rfl hng
    | centerLines => exact absurd rfl hng

/-! ### Heap lemmas: allocation and in-place writes never touch other buffers -/

theorem Heap.length_alloc (h : Heap) (img : Img) :
    (h.alloc img).1.bufs.length = h.bufs.length + 1 := by
  simp [Heap.alloc]

theorem Heap.length_write (h : Heap) (r : Nat) (img : Img) :
    (h.write r img).bufs.length = h.bufs.length := by
  simp [Heap.write]

theorem Heap.get_alloc_of_lt (h : Heap) (img : Img) {r : Nat}
    (hr : r < h.bufs.length) : (h.alloc img).1.get r = h.get r := by
  unfold Heap.alloc Heap.get
  rw [List.getD_eq_getElem?_getD, List.getD_eq_getElem?_getD]
  simp only
  rw [List.getElem?_append_left hr]

theorem Heap.get_write_of_ne (h : Heap) {i r : Nat} (img : Img) (hne : i ≠ r) :
    (h.write i img).get r = h.get r := by
  unfold Heap.write Heap.get
  rw [List.getD_eq_getElem?_getD, List.getD_eq_getElem?_getD]
  simp only
  rw [List.getElem?_set_ne hne]

theorem heap_chain0_get (h : Heap) (image : Nat) (him : image < h.bufs.length)
    (a1 buf : Img) :
    ((h.alloc a1).1.write h.bufs.length buf).get image = h.get image := by
  rw [Heap.get_write_of_ne _ _ (by omega : h.bufs.length ≠ image)]
  exact Heap.get_alloc_of_lt h a1 him

theorem heap_chain1_get (h : Heap) (image : Nat) (him : image < h.bufs.length)
    (a1 buf res : Img) :
    ((((h.alloc a1).1.write h.bufs.length buf).alloc res).1).get image = h.get image := by
  have l1 : ((h.alloc a1).1.write h.bufs.length buf).bufs.length = h.bufs.length + 1 := by
    rw [Heap.length_write, Heap.length_alloc]
  rw [Heap.get_alloc_of_lt _ _ (by omega : image < ((h.alloc a1).1.write h.bufs.length buf).bufs.length)]
  exact heap_chain0_get h image him a1 buf

theorem heap_chain2_get (h : Heap) (image : Nat) (him : image < h.bufs.length)
    (a1 a2 buf res : Img) :
    (((((h.alloc a1).1.alloc a2).1.write ((h.alloc a1).1.bufs.length) buf).alloc res).1).get image
      = h.get image := by
  have l1 : (h.alloc a1).1.bufs.length = h.bufs.length + 1 := Heap.length_alloc h a1
  have l2 : ((h.alloc a1).1.alloc a2).1.bufs.length = h.bufs.length + 2 := by
    rw [Heap.length_alloc, Heap.length_alloc]
  have l3 : (((h.alloc a1).1.alloc a2).1.write ((h.alloc a1).1.bufs.length) buf).bufs.length
      = h.bufs.length + 2 := by
    rw [Heap.length_write, l2]
  rw [Heap.get_alloc_of_lt _ _ (by omega :
    image < (((h.alloc a1).1.alloc a2).1.write ((h.alloc a1).1.bufs.length) buf).bufs.length)]
  rw [Heap.get_write_of_ne _ _ (by omega : (h.alloc a1).1.bufs.length ≠ image)]
  rw [Heap.get_alloc_of_lt _ _ (by omega : image < (h.alloc a1).1.bufs.length)]
  exact Heap.get_alloc_of_lt h a1 him

theorem draw_grid_heap_spec {h : Heap} {image : Nat} {gsx gsy : Int} {c : Color}
    {t : Nat} {alpha : ℚ} {dashed : Bool} {dl dg oX oY : Int}
    (him : image < h.bufs.length) (hgsx : gsx ≠ 0) (hgsy : gsy ≠ 0)
    (hd : dashed = true → dl + dg ≠ 0) :
    ∃ h' r, draw_grid_heap h image gsx gsy c t alpha dashed dl dg oX oY = .ok (h', r) ∧
      Heap.get h' image = Heap.get h image ∧ r ≠ image := by
  obtain ⟨buf, hbuf, _, _⟩ :=
    @gridOverlayBuf_spec (h.get image) gsx gsy c t dashed dl dg oX oY hgsx hgsy hd
  simp only [draw_grid_heap]
  rw [hbuf]
  refine ⟨_, _, rfl, ?_, ?_⟩
  · exact heap_chain2_get h image him _ _ _ _
  · have l3 : (((h.alloc (h.get image)).1.alloc (h.get image)).1.write
        ((h.alloc (h.get image)).1.bufs.length) buf).bufs.length = h.bufs.length + 2 := by
      rw [Heap.length_write, Heap.length_alloc, Heap.length_alloc]
    omega

/-! ### Concrete inputs used by counterexamples and witnesses -/

/-- A concrete valid 2×2 three-channel image. -/
def sampleImage : Img :=
  [[(10, 20, 30), (40, 50, 60)], [(70, 80, 90), (100, 110, 120)]]

/-- A concrete valid render style (solid red lines, alpha 0.7, no offset). -/
def sampleStyle : RenderStyle := ⟨(255, 0, 0), 1, 7 / 10, false, 10, 10, 0, 0⟩

/-- A degenerate image of width 0 (two empty rows), as numpy would hold for a
0-column buffer. -/
def zeroWidthImage : Img := [[], []]

/-- The sample style satisfies the spec's RenderStyle constraints. -/
theorem sampleStyle_ok : StyleOk sampleStyle := by
  refine ⟨?_, ?_, ?_, ?_, ?_, ?_, ?_⟩
  · show (0 : ℚ) ≤ 7 / 10
    norm_num
  · show (7 / 10 : ℚ) ≤ 1
    norm_num
  · decide
  · decide
  · intro hd
    exact absurd hd (by decide)
  · decide
  · decide

/-! ### The claims -/

/-- Claim C1, counterexample: the claim asserts that alpha=1.5 and width=0
each make the call fail with a documented error before any buffer is
allocated; in the code neither call fails — both return an `ok` buffer
(`cv2.addWeighted` happily extrapolates alpha=1.5, and a zero-width image
just yields empty ranges). -/
theorem c1_counterexample :
    (∃ buf, renderOverlay sampleImage (GridSpec.fixedSize 50 50)
      (withAlpha sampleStyle (3 / 2)) = .ok buf) ∧
    (∃ buf, renderOverlay zeroWidthImage (GridSpec.fixedSize 50 50) sampleStyle =
      .ok buf) :=
  ⟨⟨_, rfl⟩, ⟨_, rfl⟩⟩

/-- Claim C1, amended: the code performs no validation.  alpha=1.5 produces a
buffer of the input's shape; width=0 produces a buffer; cellsX=0 raises
Python `ZeroDivisionError` (not a dedicated `InvalidParameter`); a zero cell
size raises Python `ValueError` from `range()` — and only after the copies
are allocated. -/
theorem c1_code_behavior :
    Except.map shape (renderOverlay sampleImage (GridSpec.fixedSize 50 50)
      (withAlpha sampleStyle (3 / 2))) = .ok (shape sampleImage) ∧
    Except.map shape (renderOverlay zeroWidthImage (GridSpec.fixedSize 50 50)
      sampleStyle) = .ok (shape zeroWidthImage) ∧
    renderOverlay sampleImage (GridSpec.fixedCount 0 10) sampleStyle =
      .error .zeroDivisionError ∧
    renderOverlay sampleImage (GridSpec.fixedSize 0 50) sampleStyle =
      .error .valueError :=
  ⟨rfl, rfl, rfl, rfl⟩

/-- Claim C2: for every valid image (≥1×1, rectangular, 8-bit channels — the
three-channel pixel format is fixed by the `Color` type) and every
GridSpec/RenderStyle satisfying the spec constraints, the overlay returns a
buffer of identical width, height (and so channel count) — indeed identical
full shape. -/
theorem c2_shape (img : Img) (spec : GridSpec) (style : RenderStyle)
    (himg : ImgOk img) (hspec : SpecOk spec img) (hstyle : StyleOk style) :
    ∃ out, renderOverlay img spec style = .ok out ∧
      heightOf out = heightOf img ∧ widthOf out = widthOf img ∧
      shape out = shape img := by
  obtain ⟨out, hout, hsh⟩ := renderOverlay_spec hspec hstyle
  exact ⟨out, hout, heightOf_eq_of_shape hsh, widthOf_eq_of_shape hsh, hsh⟩

/-- Witness for C2 at a concrete image, spec and style. -/
theorem c2_shape_witness :
    ∃ out, renderOverlay sampleImage (GridSpec.fixedSize 1 1) sampleStyle = .ok out ∧
      heightOf out = heightOf sampleImage ∧ widthOf out = widthOf sampleImage ∧
      shape out = shape sampleImage :=
  c2_shape sampleImage (GridSpec.fixedSize 1 1) sampleStyle (by decide)
    ⟨by decide, by decide⟩ sampleStyle_ok

/-- Claim C3: against the explicit buffer heap, every overlay operation
(all grid variants and guide lines) leaves the caller's input buffer
untouched — after the call the input reference still holds exactly the
buffer it held before — and returns a reference distinct from the input's. -/
theorem c3_no_mutation (h : Heap) (image : Nat) (spec : GridSpec)
    (style : RenderStyle) (him : image < h.bufs.length)
    (himg : ImgOk (h.get image)) (hspec : SpecOk spec (h.get image))
    (hstyle : StyleOk style) :
    ∃ h' r, renderOverlay_heap h image spec style = .ok (h', r) ∧
      Heap.get h' image = Heap.get h image ∧ r ≠ image := by
  obtain ⟨ha0, ha1, ht, hcol, hdash0, hoX, hoY⟩ := hstyle
  have hdash : style.dashed = true → style.dashLengthPx + style.dashGapPx ≠ 0 := by
    intro hd
    obtain ⟨hl, hg⟩ := hdash0 hd
    omega
  cases spec with
  | fixedSize cw ch =>
    obtain ⟨h1, h2⟩ := hspec
    exact draw_grid_heap_spec him (by omega) (by omega) hdash
  | fixedCount cx cy =>
    obtain ⟨h1, h2, h3, h4⟩ := hspec
    have hcx : cx ≠ 0 := by omega
    have hcy : cy ≠ 0 := by omega
    simp only [renderOverlay_heap, pyFloorDiv_ne hcx, pyFloorDiv_ne hcy]
    exact draw_grid_heap_spec him (by omega) (by omega) hdash
  | goldenRatio d =>
    simp only [renderOverlay_heap]
    refine ⟨_, _, rfl, heap_chain1_get h image him _ _ _, ?_⟩
    simp only [Heap.length_write, Heap.length_alloc]
    omega
  | ruleOfThirds =>
    simp only [renderOverlay_heap]
    refine ⟨_, _, rfl, heap_chain1_get h image him _ _ _, ?_⟩
    simp only [Heap.length_write, Heap.length_alloc]
    omega
  | centerLines =>
    simp only [renderOverlay_heap]
    refine ⟨_, _, rfl, heap_chain1_get h image him _ _ _, ?_⟩
    simp only [Heap.length_write, Heap.length_alloc]
    omega
  | guideLines hp vp =>
    simp only [renderOverlay_heap]
    refine ⟨_, _, rfl, heap_chain0_get h image him _ _, ?_⟩
    omega

/-- Witness for C3: a one-buffer heap, the CenterLines variant. -/
theorem c3_no_mutation_witness :
    ∃ h' r, renderOverlay_heap ⟨[sampleImage]⟩ 0 GridSpec.centerLines sampleStyle =
      .ok (h', r) ∧
      Heap.get h' 0 = Heap.get ⟨[sampleImage]⟩ 0 ∧ r ≠ 0 :=
  c3_no_mutation ⟨[sampleImage]⟩ 0 GridSpec.centerLines sampleStyle (by decide)
    (by decide) True.intro sampleStyle_ok

/-- Claim C4: for FixedSize with cell width ≥ 1 and offset ≥ 0, the vertical
line x-positions iterated by `draw_grid` are exactly
`{offsetX + k·w_cell : k ≥ 0, offsetX + k·w_cell < W}` — the lattice starts
at the offset and stops strictly before the width — and symmetrically for
horizontal positions against the height; in particular `rangeList 0 100 50`
(grid_size_x=50 on width=100) is exactly `[0, 50]`, with 100 excluded. -/
theorem c4_fixed_size_positions (W H w_cell offX offY dl dg : Int)
    (hw : 1 ≤ w_cell) (hoX : 0 ≤ offX) (hoY : 0 ≤ offY) :
    (∀ x : Int, x ∈ rangeList offX W w_cell ↔
      ∃ k : Nat, x = offX + (k : Int) * w_cell ∧ x < W) ∧
    vSegs W H w_cell false dl dg offX =
      .ok ((rangeList offX W w_cell).map fun x => ((x, (0 : Int)), (x, H))) ∧
    (∀ y : Int, y ∈ rangeList offY H w_cell ↔
      ∃ k : Nat, y = offY + (k : Int) * w_cell ∧ y < H) ∧
    hSegs W H w_cell false dl dg offY =
      .ok ((rangeList offY H w_cell).map fun y => (((0 : Int), y), (W, y))) ∧
    rangeList 0 100 50 = [0, 50] := by
  have hw0 : 0 < w_cell := by omega
  exact ⟨fun x => mem_rangeList hw0, vSegs_eq_solid (by omega),
    fun y => mem_rangeList hw0, hSegs_eq_solid (by omega), by decide⟩

/-- Witness for C4 at width 100, height 80, cell 50, offsets 0. -/
theorem c4_fixed_size_positions_witness :
    (∀ x : Int, x ∈ rangeList 0 100 50 ↔
      ∃ k : Nat, x = 0 + (k : Int) * 50 ∧ x < 100) ∧
    vSegs 100 80 50 false 10 10 0 =
      .ok ((rangeList 0 100 50).map fun x => ((x, (0 : Int)), (x, 80))) ∧
    (∀ y : Int, y ∈ rangeList 0 80 50 ↔
      ∃ k : Nat, y = 0 + (k : Int) * 50 ∧ y < 80) ∧
    hSegs 100 80 50 false 10 10 0 =
      .ok ((rangeList 0 80 50).map fun y => (((0 : Int), y), (100, y))) ∧
    rangeList 0 100 50 = [0, 50] :=
  c4_fixed_size_positions 100 80 50 0 0 10 10 (by decide) (by decide) (by decide)

/-- Claim C5: for every non-GuideLines variant on a valid input, alpha = 1
returns exactly the overlay buffer (the copy with the lines drawn), and
alpha = 0 returns exactly the original input. -/
theorem c5_alpha_extremes (img : Img) (spec : GridSpec) (style : RenderStyle)
    (himg : ImgOk img) (hspec : SpecOk spec img) (hstyle : StyleOk style)
    (hng : spec.isGuide = false) :
    renderOverlay img spec (withAlpha style 1) = overlayBuf img spec style ∧
    renderOverlay img spec (withAlpha style 0) = .ok img := by
  obtain ⟨buf, hbuf, hsh, hbd, hall⟩ := overlayBuf_spec hspec hstyle hng
  obtain ⟨hh, hw, hrect, hbdimg⟩ := himg
  constructor
  · rw [hall 1, hbuf, addWeighted_one buf img hsh (hbd hbdimg)]
  · rw [hall 0, addWeighted_zero buf img hsh hbdimg]

/-- Witness for C5 at the sample image with the CenterLines variant. -/
theorem c5_alpha_extremes_witness :
    renderOverlay sampleImage GridSpec.centerLines (withAlpha sampleStyle 1) =
      overlayBuf sampleImage GridSpec.centerLines sampleStyle ∧
    renderOverlay sampleImage GridSpec.centerLines (withAlpha sampleStyle 0) =
      .ok sampleImage :=
  c5_alpha_extremes sampleImage GridSpec.centerLines sampleStyle (by decide)
    True.intro sampleStyle_ok rfl

/-- Claim C6: FixedCount with counts ≥ 1 produces exactly the output of
FixedSize invoked with cellWidthPx = width // cellsX and
cellHeightPx = height // cellsY and the same style; with cellsX = cellsY = 1
this is FixedSize with cellWidthPx = width, cellHeightPx = height. -/
theorem c6_fixed_count_delegates (img : Img) (style : RenderStyle) (cx cy : Int)
    (hcx : 1 ≤ cx) (hcy : 1 ≤ cy) :
    renderOverlay img (GridSpec.fixedCount cx cy) style =
      renderOverlay img (GridSpec.fixedSize ((widthOf img : Int).fdiv cx)
        ((heightOf img : Int).fdiv cy)) style ∧
    renderOverlay img (GridSpec.fixedCount 1 1) style =
      renderOverlay img (GridSpec.fixedSize (widthOf img) (heightOf img)) style := by
  constructor
  · simp only [renderOverlay, draw_adaptive_grid,
      pyFloorDiv_ne (show cx ≠ 0 by omega), pyFloorDiv_ne (show cy ≠ 0 by omega)]
  · simp only [renderOverlay, draw_adaptive_grid,
      pyFloorDiv_ne (show (1 : Int) ≠ 0 by decide), Int.fdiv_one]

/-- Witness for C6 at the sample image with cellsX = cellsY = 2. -/
theorem c6_fixed_count_delegates_witness :
    renderOverlay sampleImage (GridSpec.fixedCount 2 2) sampleStyle =
      renderOverlay sampleImage (GridSpec.fixedSize
        ((widthOf sampleImage : Int).fdiv 2)
        ((heightOf sampleImage : Int).fdiv 2)) sampleStyle ∧
    renderOverlay sampleImage (GridSpec.fixedCount 1 1) sampleStyle =
      renderOverlay sampleImage
        (GridSpec.fixedSize (widthOf sampleImage) (heightOf sampleImage)) sampleStyle :=
  c6_fixed_count_delegates sampleImage sampleStyle 2 2 (by decide) (by decide)

unseal Rat.mul Rat.add Rat.inv Rat.sub Rat.ofScientific in
/-- Claim C7: for the GoldenRatio variant with divisions ≥ 1, the (i+1)-th
position (0-based index i) produced by the accumulation loop equals the
truncation of offset + Σ_{j=0..i} extent/φ^(j+1) — the running position is
kept unrounded and only truncated when appended — and with divisions = 1,
extent = 1000, offset = 0 the single position is 618.  Python double
arithmetic on the literal `phi = 1.618033988749895` is modelled as exact
rational arithmetic on the same literal. -/
theorem c7_golden_positions (extent : Nat) (offset d : Int) (hd : 1 ≤ d) :
    (∀ i : Nat, i < d.toNat →
      (golden_positions extent offset d)[i]? =
        some (pyInt ((offset : ℚ) +
          ∑ j in Finset.range (i + 1), (extent : ℚ) / phi ^ (j + 1)))) ∧
    golden_positions 1000 0 1 = [618] := by
  constructor
  · intro i hi
    have h := goldenLoop_getElem? (extent : ℚ) d.toNat (offset : ℚ) 0 i hi
    simpa [golden_positions, Nat.zero_add] using h
  · decide

/-- Witness for C7 at divisions = 1, extent = 1000, offset = 0. -/
theorem c7_golden_positions_witness :
    (∀ i : Nat, i < (1 : Int).toNat →
      (golden_positions 1000 0 1)[i]? =
        some (pyInt ((0 : ℚ) +
          ∑ j in Finset.range (i + 1), (1000 : ℚ) / phi ^ (j + 1)))) ∧
    golden_positions 1000 0 1 = [618] :=
  c7_golden_positions 1000 0 1 (by decide)

/-- Claim C8: in dashed mode the dash tiling along each line's own axis is
the fixed list `rangeList 0 extent (dashLengthPx + dashGapPx)` — starting at
coordinate 0 with period dashLengthPx + dashGapPx — and the segment lists of
`draw_grid` for EVERY offset are built from that same offset-independent
list (the offset moves only the outer line positions, never the dash
phase).  FixedCount inherits this by delegation (claim C6). -/
theorem c8_dash_phase_offset_independent (W H gsx gsy dl dg : Int)
    (hgx : 1 ≤ gsx) (hgy : 1 ≤ gsy) (hdl : 1 ≤ dl) (hdg : 1 ≤ dg) :
    (∀ offX : Int, vSegs W H gsx true dl dg offX =
      .ok ((rangeList offX W gsx).flatMap fun x =>
        (rangeList 0 H (dl + dg)).map fun y => ((x, y), (x, min (y + dl) H)))) ∧
    (∀ offY : Int, hSegs W H gsy true dl dg offY =
      .ok ((rangeList offY H gsy).flatMap fun y =>
        (rangeList 0 W (dl + dg)).map fun x => ((x, y), (min (x + dl) W, y)))) ∧
    (∀ (k : Nat) (v : Int),
      (rangeList 0 H (dl + dg))[k]? = some v → v = (k : Int) * (dl + dg)) ∧
    (∀ (k : Nat) (v : Int),
      (rangeList 0 W (dl + dg))[k]? = some v → v = (k : Int) * (dl + dg)) ∧
    (0 < H → (rangeList 0 H (dl + dg))[0]? = some 0) ∧
    (0 < W → (rangeList 0 W (dl + dg))[0]? = some 0) := by
  refine ⟨fun offX => vSegs_eq_dashed (by omega) (by omega),
    fun offY => hSegs_eq_dashed (by omega) (by omega), ?_, ?_, ?_, ?_⟩
  · intro k v hkv
    have h := rangeList_getElem?_eq hkv
    omega
  · intro k v hkv
    have h := rangeList_getElem?_eq hkv
    omega
  · intro hH
    exact rangeList_head_zero (by omega) hH
  · intro hW
    exact rangeList_head_zero (by omega) hW

/-- Witness for C8 at width 100, height 80, cell 25, dash 10/5. -/
theorem c8_dash_phase_offset_independent_witness :
    (∀ offX : Int, vSegs 100 80 25 true 10 5 offX =
      .ok ((rangeList offX 100 25).flatMap fun x =>
        (rangeList 0 80 (10 + 5)).map fun y => ((x, y), (x, min (y + 10) 80)))) ∧
    (∀ offY : Int, hSegs 100 80 25 true 10 5 offY =
      .ok ((rangeList offY 80 25).flatMap fun y =>
        (rangeList 0 100 (10 + 5)).map fun x => ((x, y), (min (x + 10) 100, y)))) ∧
    (∀ (k : Nat) (v : Int),
      (rangeList 0 80 (10 + 5))[k]? = some v → v = (k : Int) * (10 + 5)) ∧
    (∀ (k : Nat) (v : Int),
      (rangeList 0 100 (10 + 5))[k]? = some v → v = (k : Int) * (10 + 5)) ∧
    ((0 : Int) < 80 → (rangeList 0 80 (10 + 5))[0]? = some 0) ∧
    ((0 : Int) < 100 → (rangeList 0 100 (10 + 5))[0]? = some 0) :=
  c8_dash_phase_offset_independent 100 80 25 25 10 5 (by decide) (by decide)
    (by decide) (by decide)

/-- Claim C9: GuideLines draws exactly one horizontal line at
y = (height·horizontalPercent).fdiv 100 and one vertical line at
x = (width·verticalPercent).fdiv 100 (for percents ≥ 0 the Python
`int(h*p/100)` truncation is this floor), directly onto the returned copy
with no alpha blending; every pixel not covered by those two lines equals
the corresponding input pixel. -/
theorem c9_guide_lines (img : Img) (hp vp : Int) (c : Color) (t : Nat)
    (hhp0 : 0 ≤ hp) (hhp1 : hp ≤ 100) (hvp0 : 0 ≤ vp) (hvp1 : vp ≤ 100) :
    draw_guide_lines img hp vp c t =
      drawSeg c t
        (drawSeg c t img
          (((0 : Int), ((heightOf img : Int) * hp).fdiv 100),
            ((widthOf img : Int), ((heightOf img : Int) * hp).fdiv 100)))
        ((((widthOf img : Int) * vp).fdiv 100, (0 : Int)),
          (((widthOf img : Int) * vp).fdiv 100, (heightOf img : Int))) ∧
    ∀ x y : Nat,
      segCovers ((0 : Int), ((heightOf img : Int) * hp).fdiv 100)
        ((widthOf img : Int), ((heightOf img : Int) * hp).fdiv 100) t
        (x : Int) (y : Int) = false →
      segCovers (((widthOf img : Int) * vp).fdiv 100, (0 : Int))
        (((widthOf img : Int) * vp).fdiv 100, (heightOf img : Int)) t
        (x : Int) (y : Int) = false →
      getPixel (draw_guide_lines img hp vp c t) x y = getPixel img x y := by
  have e1 : pyInt ((((heightOf img : Int) * hp : Int) : ℚ) / 100) =
      ((heightOf img : Int) * hp).fdiv 100 :=
    pyInt_div100 _ (mul_nonneg (Int.natCast_nonneg _) hhp0)
  have e2 : pyInt ((((widthOf img : Int) * vp : Int) : ℚ) / 100) =
      ((widthOf img : Int) * vp).fdiv 100 :=
    pyInt_div100 _ (mul_nonneg (Int.natCast_nonneg _) hvp0)
  have hdef : draw_guide_lines img hp vp c t =
      drawSeg c t
        (drawSeg c t img
          (((0 : Int), ((heightOf img : Int) * hp).fdiv 100),
            ((widthOf img : Int), ((heightOf img : Int) * hp).fdiv 100)))
        ((((widthOf img : Int) * vp).fdiv 100, (0 : Int)),
          (((widthOf img : Int) * vp).fdiv 100, (heightOf img : Int))) := by
    simp only [draw_guide_lines]
    rw [e1, e2]
  refine ⟨hdef, fun x y hcv1 hcv2 => ?_⟩
  rw [hdef]
  rw [drawSeg_getPixel_of_not_covered c t _ _ hcv2]
  exact drawSeg_getPixel_of_not_covered c t img _ hcv1

/-- Witness for C9 at the sample image with both percents 50. -/
theorem c9_guide_lines_witness :
    draw_guide_lines sampleImage 50 50 (255, 0, 0) 1 =
      drawSeg (255, 0, 0) 1
        (drawSeg (255, 0, 0) 1 sampleImage
          (((0 : Int), ((heightOf sampleImage : Int) * 50).fdiv 100),
            ((widthOf sampleImage : Int),
              ((heightOf sampleImage : Int) * 50).fdiv 100)))
        ((((widthOf sampleImage : Int) * 50).fdiv 100, (0 : Int)),
          (((widthOf sampleImage : Int) * 50).fdiv 100,
            (heightOf sampleImage : Int))) ∧
    ∀ x y : Nat,
      segCovers ((0 : Int), ((heightOf sampleImage : Int) * 50).fdiv 100)
        ((widthOf sampleImage : Int), ((heightOf sampleImage : Int) * 50).fdiv 100) 1
        (x : Int) (y : Int) = false →
      segCovers (((widthOf sampleImage : Int) * 50).fdiv 100, (0 : Int))
        (((widthOf sampleImage : Int) * 50).fdiv 100, (heightOf sampleImage : Int)) 1
        (x : Int) (y : Int) = false →
      getPixel (draw_guide_lines sampleImage 50 50 (255, 0, 0) 1) x y =
        getPixel sampleImage x y :=
  c9_guide_lines sampleImage 50 50 (255, 0, 0) 1 (by decide) (by decide)
    (by decide) (by decide)

/-- Claim C10: in dashed mode every dash segment of `draw_grid` is clipped to
the image extent along its own axis — a vertical dash starting at y ends at
min(y + dash_length, height) ≤ height, a horizontal dash starting at x ends
at min(x + dash_length, width) ≤ width — and the final dash of a line may be
shorter: on height 18 with dash 10 gap 5 the dashes are (0,10) and (15,18),
the last of length 3. -/
theorem c10_dash_clipping (W H gsx gsy dl dg : Int)
    (hgx : gsx ≠ 0) (hgy : gsy ≠ 0) (hp : dl + dg ≠ 0) :
    (∀ (offX : Int) (segs : List Seg), vSegs W H gsx true dl dg offX = .ok segs →
      ∀ s ∈ segs, s.2.2 = min (s.1.2 + dl) H ∧ s.2.2 ≤ H ∧ s.2.1 = s.1.1) ∧
    (∀ (offY : Int) (segs : List Seg), hSegs W H gsy true dl dg offY = .ok segs →
      ∀ s ∈ segs, s.2.1 = min (s.1.1 + dl) W ∧ s.2.1 ≤ W ∧ s.2.2 = s.1.2) ∧
    vSegs 1 18 1 true 10 5 0 =
      .ok [(((0 : Int), (0 : Int)), ((0 : Int), (10 : Int))),
        ((0, 15), (0, 18))] := by
  refine ⟨?_, ?_, by rfl⟩
  · intro offX segs hsegs s hs
    rw [vSegs_eq_dashed hgx hp] at hsegs
    have hL := Except.ok.inj hsegs
    rw [← hL] at hs
    rw [List.mem_flatMap] at hs
    obtain ⟨x, hx, hsm⟩ := hs
    rw [List.mem_map] at hsm
    obtain ⟨y, hy, rfl⟩ := hsm
    exact ⟨rfl, min_le_right _ _, rfl⟩
  · intro offY segs hsegs s hs
    rw [hSegs_eq_dashed hgy hp] at hsegs
    have hL := Except.ok.inj hsegs
    rw [← hL] at hs
    rw [List.mem_flatMap] at hs
    obtain ⟨y, hy, hsm⟩ := hs
    rw [List.mem_map] at hsm
    obtain ⟨x, hx, rfl⟩ := hsm
    exact ⟨rfl, min_le_right _ _, rfl⟩

/-- Witness for C10 at the 1×18 single-column configuration. -/
theorem c10_dash_clipping_witness :
    (∀ (offX : Int) (segs : List Seg), vSegs 1 18 1 true 10 5 offX = .ok segs →
      ∀ s ∈ segs, s.2.2 = min (s.1.2 + 10) 18 ∧ s.2.2 ≤ 18 ∧ s.2.1 = s.1.1) ∧
    (∀ (offY : Int) (segs : List Seg), hSegs 1 18 1 true 10 5 offY = .ok segs →
      ∀ s ∈ segs, s.2.1 = min (s.1.1 + 10) 1 ∧ s.2.1 ≤ 1 ∧ s.2.2 = s.1.2) ∧
    vSegs 1 18 1 true 10 5 0 =
      .ok [(((0 : Int), (0 : Int)), ((0 : Int), (10 : Int))),
        ((0, 15), (0, 18))] :=
  c10_dash_clipping 1 18 1 1 10 5 (by decide) (by decide) (by decide)
